import Mathlib

/-!
# Verification of `mediawiki-item-discovery.py`

A shallow embedding of the MediaWiki item-discovery script: endpoint
resolution (`get_api_url`), the paginated listing walkers
(`get_all_pages`, `get_all_images`), special-page enumeration
(`get_special_pages`), the orchestrator's namespace loop (`main`),
and the CLI delay configuration (`__main__` / `delaySeconds`).

Python dicts of string parameters are modelled as association lists with
`dict.update` semantics (`setKey` / `dictUpdate`); JSON responses are
modelled by a structure recording exactly the fields the script accesses;
`KeyError` crashes are modelled explicitly in the walk result.
-/

set_option autoImplicit false

namespace MWDiscovery

/-- A Python dict with string keys and string values, as an association list.
Keys are kept unique by construction via `setKey`. -/
abbrev Dict := List (String × String)

/-- First-match lookup, modelling `d[k]` / `k in d` on a Python dict. -/
def getVal : Dict → String → Option String
  | [], _ => none
  | (k', v) :: rest, k => if k' = k then some v else getVal rest k

/-- `d[k] = v` on a Python dict: overwrite the entry in place if the key
is present, otherwise append the new binding at the end. -/
def setKey : Dict → String → String → Dict
  | [], k, v => [(k, v)]
  | (k', v') :: rest, k, v =>
    if k' = k then (k, v) :: rest else (k', v') :: setKey rest k v

/-- `d.update(new)` on Python dicts: fold `setKey` over the new bindings. -/
def dictUpdate (d : Dict) (new : Dict) : Dict :=
  new.foldl (fun acc kv => setKey acc kv.1 kv.2) d

/-- Generic first-match lookup in an association list (used for the
`query-continue` object, whose values are themselves dicts). -/
def getEntry {β : Type} : List (String × β) → String → Option β
  | [], _ => none
  | (k', v) :: rest, k => if k' = k then some v else getEntry rest k

/-- One entry of `data['query']['pages']`: the script reads its `fullurl`
field (line 97). -/
structure PageInfo where
  fullurl : String
deriving DecidableEq, Repr

/-- One entry of `data['query']['allimages']`: the script reads its `url`
field (line 135). -/
structure ImageInfo where
  url : String
deriving DecidableEq, Repr

/-- A JSON response as seen by the listing walkers, recording only the
fields the script accesses.

* `query`: `none` models a response without a `query` key; `some none`
  models a `query` object missing the expected `pages`/`allimages`
  sub-key (a `KeyError` when indexed); `some (some xs)` gives the list
  of raw entries in server order.
* `cont`: the modern `continue` object (`data['continue']`), if present.
* `queryCont`: the legacy `query-continue` object, a mapping from module
  name to a sub-dict of continuation parameters, if present. -/
structure Resp (α : Type) where
  query : Option (Option (List α))
  cont : Option Dict
  queryCont : Option (List (String × Dict))

/-- Extracting the entries of one response page (lines 95-97 / 133-135):
no `query` key contributes zero entries; a `query` object without the
expected sub-key raises `KeyError` (`Except.error`); otherwise each raw
entry is normalized by `extract`. -/
def extractItems {α : Type} (extract : α → String) (r : Resp α) :
    Except Unit (List String) :=
  match r.query with
  | none => .ok []
  | some none => .error ()
  | some (some xs) => .ok (xs.map extract)

/-- Continuation resolution for one response (lines 104-112 / 140-145):
a modern `continue` object is merged wholesale; otherwise a legacy
`query-continue` object is indexed at the hard-coded key `'categories'`
(raising `KeyError` when absent) and that sub-dict is merged; with
neither object the loop breaks (`.ok none`). -/
def stepCont {α : Type} (params : Dict) (r : Resp α) :
    Except Unit (Option Dict) :=
  match r.cont with
  | some c => .ok (some (dictUpdate params c))
  | none =>
    match r.queryCont with
    | some qc =>
      match getEntry qc "categories" with
      | some sub => .ok (some (dictUpdate params sub))
      | none => .error ()
    | none => .ok none

/-- Outcome of a paginated walk driven by a finite script of responses:
`requests` records the parameter set of every request issued, in order.
`done` is a normal `break`; `pending` means the response script was
exhausted while the loop still wanted another page; `crash` is an
uncaught `KeyError`. -/
inductive WalkResult where
  | done (requests : List Dict) (items : List String)
  | pending (requests : List Dict) (items : List String) (params : Dict)
  | crash (requests : List Dict)
deriving DecidableEq, Repr

/-- Prepend one completed page (its request `p` and its extracted
`items`) to the outcome of the rest of the walk. -/
def WalkResult.after (p : Dict) (items : List String) : WalkResult → WalkResult
  | .done reqs its => .done (p :: reqs) (items ++ its)
  | .pending reqs its q => .pending (p :: reqs) (items ++ its) q
  | .crash reqs => .crash (p :: reqs)

/-- The requests issued by a walk. -/
def WalkResult.requests : WalkResult → List Dict
  | .done reqs _ => reqs
  | .pending reqs _ _ => reqs
  | .crash reqs => reqs

/-- The items accumulated by a walk (empty for a crash: the process dies
before returning). -/
def WalkResult.items : WalkResult → List String
  | .done _ its => its
  | .pending _ its _ => its
  | .crash _ => []

/-- The shared `while True` loop of `get_all_pages` (lines 91-112) and
`get_all_images` (lines 129-145): issue a request with the current
parameter set, extract and append the page's entries, then resolve the
continuation; repeat until `break` or `KeyError`. The server is modelled
by the finite script of responses consumed in order. -/
def walk {α : Type} (extract : α → String) (params : Dict) :
    List (Resp α) → WalkResult
  | [] => .pending [] [] params
  | r :: rest =>
    match extractItems extract r with
    | .error _ => .crash [params]
    | .ok items =>
      match stepCont params r with
      | .error _ => .crash [params]
      | .ok none => .done [params] items
      | .ok (some params') => (walk extract params' rest).after params items

/-- The initial parameter set of `get_all_pages` (lines 79-88). -/
def allPagesParams (gapnamespace : Int) : Dict :=
  [("action", "query"),
   ("generator", "allpages"),
   ("gapnamespace", toString gapnamespace),
   ("gaplimit", "50"),
   ("prop", "info"),
   ("inprop", "url"),
   ("format", "json"),
   ("continue", "")]

/-- The initial parameter set of `get_all_images` (lines 119-126). -/
def allImagesParams : Dict :=
  [("action", "query"),
   ("list", "allimages"),
   ("aiprop", "url"),
   ("ailimit", "50"),
   ("format", "json"),
   ("continue", "")]

/-- Normalization of one article entry (line 97). -/
def articleItem (p : PageInfo) : String := "mediawiki-article:" ++ p.fullurl

/-- Normalization of one media entry (line 135). -/
def imageItem (i : ImageInfo) : String := "mediawiki-media:" ++ i.url

/-- `get_all_pages(api_url, gapnamespace)` against a scripted server. -/
def get_all_pages (gapnamespace : Int) (script : List (Resp PageInfo)) :
    WalkResult :=
  walk articleItem (allPagesParams gapnamespace) script

/-- `get_all_images(api_url)` against a scripted server. -/
def get_all_images (script : List (Resp ImageInfo)) : WalkResult :=
  walk imageItem allImagesParams script

/-- One entry of `data['query']['specialpagealiases']`: the script reads
`entry['realname']` and `entry.get('aliases', [])` (lines 166-167).
`aliases = none` models an entry with no `aliases` field. -/
structure SPEntry where
  realname : String
  aliases : Option (List String)
deriving DecidableEq, Repr

/-- The accumulation of the `special_pages` set (lines 164-167): for each
entry, add its `realname` and all of its aliases (defaulting to the empty
list when the `aliases` field is absent). Python-set semantics is modelled
by a `Finset`. -/
def specialNames (entries : List SPEntry) : Finset String :=
  entries.foldl
    (fun s e => (e.aliases.getD []).foldl (fun s' a => insert a s') (insert e.realname s))
    ∅

/-- Replace every occurrence of a nonempty pattern, left to right, with
the character count of the input as structural fuel (one unit per emitted
position, so `s.length` always suffices). -/
def replaceAllAux (pat sub : List Char) : Nat → List Char → List Char
  | _, [] => []
  | 0, s => s
  | Nat.succ fuel, c :: rest =>
    if pat.isPrefixOf (c :: rest) && !pat.isEmpty then
      sub ++ replaceAllAux pat sub fuel ((c :: rest).drop pat.length)
    else
      c :: replaceAllAux pat sub fuel rest

/-- `s.replace(pat, sub)` on Python strings, for nonempty `pat` (the
script only ever replaces the `$1` placeholder). -/
def replaceAll (pat sub s : List Char) : List Char :=
  replaceAllAux pat sub s.length s

/-- `template_url.replace('$1', f'Special:{special_page}')` (line 171). -/
def templateSub (templateUrl name : String) : String :=
  ⟨replaceAll "$1".data ("Special:" ++ name).data templateUrl.data⟩

/-- `get_special_pages(api_url, template_url)` (lines 151-175): the set of
emitted special-page items. -/
def get_special_pages (entries : List SPEntry) (templateUrl : String) :
    Finset String :=
  (specialNames entries).image
    (fun name => "mediawiki-special:" ++ templateSub templateUrl name)

/-- One value of the namespace table (`data['query']['namespaces']`): the
orchestrator reads `ns['id']` (line 198). -/
structure NamespaceInfo where
  id : Int
  canonical : Option String
deriving DecidableEq, Repr

/-- The namespace loop of `main` (lines 197-204): iterate the namespace
table's values in table order, `continue` past negative IDs, and run one
`get_all_pages` walk per remaining namespace. Returns the namespace IDs of
the walks run, in order. -/
def namespaceWalkIds : List NamespaceInfo → List Int
  | [] => []
  | ns :: rest =>
    if ns.id < 0 then namespaceWalkIds rest else ns.id :: namespaceWalkIds rest

/-- Substring test on character lists: the pattern is a prefix of some
suffix. -/
def containsSub (s pat : List Char) : Bool :=
  match s with
  | [] => pat.isEmpty
  | _ :: rest => pat.isPrefixOf s || containsSub rest pat

/-- `pat in s` on Python strings. -/
def strContains (s pat : String) : Bool :=
  containsSub s.data pat.data

/-- The characters before the first occurrence of `c`, modelling
`s.split(c)[0]`. -/
def takeUntilChar (c : Char) : List Char → List Char
  | [] => []
  | x :: rest => if x = c then [] else x :: takeUntilChar c rest

/-- `href.split('?')[0]` (line 44): the URL up to its query string. -/
def stripQuery (href : String) : String :=
  ⟨takeUntilChar '?' href.data⟩

/-- Split a character list at the first occurrence of a pattern,
returning the pieces before and after it, or `none` when the pattern
does not occur. -/
def splitFirst (pat : List Char) : List Char → Option (List Char × List Char)
  | [] => if pat.isEmpty then some ([], []) else none
  | c :: rest =>
    if pat.isPrefixOf (c :: rest) then some ([], (c :: rest).drop pat.length)
    else (splitFirst pat rest).map (fun p => (c :: p.1, p.2))

/-- The `(scheme, netloc)` components of `urllib.parse.urlparse`, modelled
for the absolute URLs the script feeds it (line 53): the scheme is the
part before `://` and the netloc runs from there to the next `/`. -/
def urlSchemeNetloc (url : String) : String × String :=
  match splitFirst "://".data url.data with
  | none => ("", "")
  | some (before, after) => (⟨before⟩, ⟨takeUntilChar '/' after⟩)

/-- The page fetched during endpoint resolution, recording only what the
script inspects: the `href` of a `<link rel="EditURI">` element if one
exists, and the first `<link rel="stylesheet">` element if one exists
(`some none` = a stylesheet link without an `href` attribute,
`some (some h)` = one with `href` `h`). -/
structure FetchedPage where
  editURI : Option String
  stylesheet : Option (Option String)
deriving DecidableEq, Repr

/-- An observable side effect of `get_api_url`: an HTTP fetch or a call to
`delay()`. -/
inductive NetEvent where
  | fetch (url : String)
  | pause
deriving DecidableEq, Repr

/-- `get_api_url(wiki_url)` (lines 28-57), with the single page fetch
modelled by `page` and the trace of fetches and pauses returned alongside
the result: if the URL already contains `api.php`, return it unchanged;
otherwise fetch the page, prefer the EditURI link's `href` with its query
string stripped, else pause and fall back to the first stylesheet link's
scheme and netloc with path `/api.php`; else `None`. -/
def get_api_url (wikiUrl : String) (page : FetchedPage) :
    Option String × List NetEvent :=
  if strContains wikiUrl "api.php" then
    (some wikiUrl, [])
  else
    match page.editURI with
    | some href => (some (stripQuery href), [.fetch wikiUrl])
    | none =>
      match page.stylesheet with
      | some (some cssUrl) =>
        let parsed := urlSchemeNetloc cssUrl
        (some (parsed.1 ++ "://" ++ parsed.2 ++ "/api.php"),
         [.fetch wikiUrl, .pause])
      | _ => (none, [.fetch wikiUrl, .pause])

/-- The module-level delay configuration (line 8): initialized to `0` and
never reassigned anywhere in the script. -/
def delaySeconds : Nat := 0

/-- The parsed CLI arguments (lines 218-221): the positional `url` and the
optional `--delay` flag. -/
structure Args where
  url : String
  delayFlag : Option String
deriving DecidableEq, Repr

/-- The delay in effect at every pause point once `__main__`
(lines 216-222) has parsed the arguments: the parsed `--delay` value is
never read and `delaySeconds` is never reassigned, so the process-wide
delay is `delaySeconds` regardless of the flag. -/
def mainDelaySeconds : Args → Nat := fun _ => delaySeconds

/-! ## Helper lemmas -/

@[simp]
lemma requests_after (p : Dict) (items : List String) (w : WalkResult) :
    (w.after p items).requests = p :: w.requests := by
  cases w <;> rfl

lemma mem_items_after {p : Dict} {its : List String} {w : WalkResult}
    {item : String} (h : item ∈ (w.after p its).items) :
    item ∈ its ∨ item ∈ w.items := by
  cases w with
  | done reqs i => exact List.mem_append.mp h
  | pending reqs i q => exact List.mem_append.mp h
  | crash reqs => simp [WalkResult.after, WalkResult.items] at h

lemma exists_of_mem_extractItems {α : Type} (extract : α → String) (r : Resp α)
    (items : List String) (h : extractItems extract r = .ok items) :
    ∀ item ∈ items, ∃ a, item = extract a := by
  unfold extractItems at h
  match hq : r.query with
  | none => rw [hq] at h; cases h; simp
  | some none => rw [hq] at h; cases h
  | some (some xs) =>
    rw [hq] at h; cases h
    intro item hitem
    obtain ⟨a, -, rfl⟩ := List.mem_map.mp hitem
    exact ⟨a, rfl⟩

lemma exists_of_mem_walk_items {α : Type} (extract : α → String) (p : Dict)
    (script : List (Resp α)) (item : String)
    (h : item ∈ (walk extract p script).items) : ∃ a, item = extract a := by
  induction script generalizing p with
  | nil => simp [walk, WalkResult.items] at h
  | cons r rest ih =>
    rw [walk] at h
    match hx : extractItems extract r with
    | .error e => rw [hx] at h; simp [WalkResult.items] at h
    | .ok items =>
      rw [hx] at h
      match hc : stepCont p r with
      | .error e => rw [hc] at h; simp [WalkResult.items] at h
      | .ok none =>
        rw [hc] at h
        simp only [WalkResult.items] at h
        exact exists_of_mem_extractItems extract r items hx item h
      | .ok (some p') =>
        rw [hc] at h
        rcases mem_items_after h with h' | h'
        · exact exists_of_mem_extractItems extract r items hx item h'
        · exact ih p' h'

lemma getVal_setKey_ne (d : Dict) (k kn vn : String) (h : kn ≠ k) :
    getVal (setKey d kn vn) k = getVal d k := by
  induction d with
  | nil => simp [setKey, getVal, h]
  | cons a t ih =>
    rcases a with ⟨ak, av⟩
    by_cases hak : ak = kn
    · subst hak
      simp [setKey, getVal, h]
    · simp [setKey, hak, getVal, ih]

lemma getVal_setKey_self (d : Dict) (k v : String) :
    getVal (setKey d k v) k = some v := by
  induction d with
  | nil => simp [setKey, getVal]
  | cons a t ih =>
    rcases a with ⟨ak, av⟩
    by_cases hak : ak = k
    · subst hak
      simp [setKey, getVal]
    · simp [setKey, hak, getVal, ih]

lemma isSome_getVal_setKey (d : Dict) (k k' v' : String)
    (h : (getVal d k).isSome) : (getVal (setKey d k' v') k).isSome := by
  by_cases hk : k' = k
  · subst hk; simp [getVal_setKey_self]
  · rwa [getVal_setKey_ne d k k' v' hk]

lemma getVal_dictUpdate_not_mem (d new : Dict) (k : String)
    (h : ∀ kv ∈ new, kv.1 ≠ k) : getVal (dictUpdate d new) k = getVal d k := by
  induction new generalizing d with
  | nil => rfl
  | cons kv t ih =>
    show getVal (dictUpdate (setKey d kv.1 kv.2) t) k = getVal d k
    rw [ih (setKey d kv.1 kv.2) (fun kv' h' => h kv' (List.mem_cons_of_mem _ h'))]
    exact getVal_setKey_ne d k kv.1 kv.2 (h kv (List.mem_cons_self _ _))

lemma isSome_getVal_dictUpdate (d new : Dict) (k : String)
    (h : (getVal d k).isSome) : (getVal (dictUpdate d new) k).isSome := by
  induction new generalizing d with
  | nil => exact h
  | cons kv t ih =>
    exact ih (setKey d kv.1 kv.2) (isSome_getVal_setKey d k kv.1 kv.2 h)

lemma mem_foldl_insert (l : List String) (s : Finset String) (x : String) :
    x ∈ l.foldl (fun s' a => insert a s') s ↔ x ∈ s ∨ x ∈ l := by
  induction l generalizing s with
  | nil => simp
  | cons a t ih =>
    rw [List.foldl_cons, ih]
    simp [Finset.mem_insert]
    tauto

lemma mem_specialNames_foldl (es : List SPEntry) (s : Finset String) (x : String) :
    x ∈ es.foldl
        (fun s' e => (e.aliases.getD []).foldl (fun s'' a => insert a s'')
          (insert e.realname s')) s
      ↔ x ∈ s ∨ ∃ e ∈ es, x = e.realname ∨ x ∈ e.aliases.getD [] := by
  induction es generalizing s with
  | nil => simp
  | cons e t ih =>
    rw [List.foldl_cons, ih, mem_foldl_insert, Finset.mem_insert]
    constructor
    · rintro ((((rfl | h) | h) | ⟨e', he', h⟩))
      · exact Or.inr ⟨e, List.mem_cons_self _ _, Or.inl rfl⟩
      · exact Or.inl h
      · exact Or.inr ⟨e, List.mem_cons_self _ _, Or.inr h⟩
      · exact Or.inr ⟨e', List.mem_cons_of_mem _ he', h⟩
    · rintro (h | ⟨e', he', h⟩)
      · exact Or.inl (Or.inl (Or.inr h))
      · rcases List.mem_cons.mp he' with rfl | he''
        · rcases h with rfl | h
          · exact Or.inl (Or.inl (Or.inl rfl))
          · exact Or.inl (Or.inr h)
        · exact Or.inr ⟨e', he'', h⟩

lemma mem_specialNames (es : List SPEntry) (x : String) :
    x ∈ specialNames es ↔ ∃ e ∈ es, x = e.realname ∨ x ∈ e.aliases.getD [] := by
  rw [specialNames, mem_specialNames_foldl]
  simp

lemma mem_get_special_pages (es : List SPEntry) (templateUrl item : String) :
    item ∈ get_special_pages es templateUrl ↔
      ∃ name, (∃ e ∈ es, name = e.realname ∨ name ∈ e.aliases.getD []) ∧
        item = "mediawiki-special:" ++ templateSub templateUrl name := by
  rw [get_special_pages]
  simp only [Finset.mem_image, mem_specialNames]
  constructor
  · rintro ⟨name, hname, rfl⟩
    exact ⟨name, hname, rfl⟩
  · rintro ⟨name, hname, rfl⟩
    exact ⟨name, hname, rfl⟩

/-- No continuation object carried by `r` (neither its modern `continue`
object nor the `categories` sub-object of its legacy `query-continue`
object, the only one the script ever merges) binds the key `k`. -/
def RespAvoids {α : Type} (k : String) (r : Resp α) : Prop :=
  (∀ c, r.cont = some c → ∀ kv ∈ c, kv.1 ≠ k) ∧
  (∀ qc sub, r.queryCont = some qc → getEntry qc "categories" = some sub →
    ∀ kv ∈ sub, kv.1 ≠ k)

lemma walk_requests_getVal {α : Type} (extract : α → String) (k v : String)
    (p : Dict) (script : List (Resp α))
    (hp : getVal p k = some v)
    (hs : ∀ r ∈ script, RespAvoids k r) :
    ∀ req ∈ (walk extract p script).requests, getVal req k = some v := by
  induction script generalizing p with
  | nil =>
    intro req hreq
    simp [walk, WalkResult.requests] at hreq
  | cons r rest ih =>
    intro req hreq
    rw [walk] at hreq
    match hx : extractItems extract r with
    | .error e =>
      rw [hx] at hreq
      simp only [WalkResult.requests, List.mem_singleton] at hreq
      subst hreq; exact hp
    | .ok items =>
      rw [hx] at hreq
      match hc : stepCont p r with
      | .error e =>
        rw [hc] at hreq
        simp only [WalkResult.requests, List.mem_singleton] at hreq
        subst hreq; exact hp
      | .ok none =>
        rw [hc] at hreq
        simp only [WalkResult.requests, List.mem_singleton] at hreq
        subst hreq; exact hp
      | .ok (some p') =>
        rw [hc] at hreq
        rw [requests_after] at hreq
        rcases List.mem_cons.mp hreq with rfl | hreq'
        · exact hp
        · have hr := hs r (List.mem_cons_self _ _)
          have hrest : ∀ r' ∈ rest, RespAvoids k r' :=
            fun r' h' => hs r' (List.mem_cons_of_mem _ h')
          have hp' : getVal p' k = some v := by
            match hcont : r.cont with
            | some c =>
              have hstep : stepCont p r = Except.ok (some (dictUpdate p c)) := by
                simp [stepCont, hcont]
              rw [hc] at hstep
              injection hstep with h1
              injection h1 with h2
              rw [h2, getVal_dictUpdate_not_mem p c k (hr.1 c hcont)]
              exact hp
            | none =>
              match hqc : r.queryCont with
              | some qc =>
                match hsub : getEntry qc "categories" with
                | some sub =>
                  have hstep : stepCont p r = Except.ok (some (dictUpdate p sub)) := by
                    simp [stepCont, hcont, hqc, hsub]
                  rw [hc] at hstep
                  injection hstep with h1
                  injection h1 with h2
                  rw [h2, getVal_dictUpdate_not_mem p sub k (hr.2 qc sub hqc hsub)]
                  exact hp
                | none =>
                  have hstep : stepCont p r = Except.error () := by
                    simp [stepCont, hcont, hqc, hsub]
                  rw [hc] at hstep
                  exact absurd hstep (by simp)
              | none =>
                have hstep : stepCont p r = Except.ok none := by
                  simp [stepCont, hcont, hqc]
                rw [hc] at hstep
                injection hstep with h1
                exact absurd h1 (by simp)
          exact ih p' hp' hrest req hreq'

lemma walk_requests_isSome {α : Type} (extract : α → String) (k : String)
    (p : Dict) (script : List (Resp α))
    (hp : (getVal p k).isSome) :
    ∀ req ∈ (walk extract p script).requests, (getVal req k).isSome := by
  induction script generalizing p with
  | nil =>
    intro req hreq
    simp [walk, WalkResult.requests] at hreq
  | cons r rest ih =>
    intro req hreq
    rw [walk] at hreq
    match hx : extractItems extract r with
    | .error e =>
      rw [hx] at hreq
      simp only [WalkResult.requests, List.mem_singleton] at hreq
      subst hreq; exact hp
    | .ok items =>
      rw [hx] at hreq
      match hc : stepCont p r with
      | .error e =>
        rw [hc] at hreq
        simp only [WalkResult.requests, List.mem_singleton] at hreq
        subst hreq; exact hp
      | .ok none =>
        rw [hc] at hreq
        simp only [WalkResult.requests, List.mem_singleton] at hreq
        subst hreq; exact hp
      | .ok (some p') =>
        rw [hc] at hreq
        rw [requests_after] at hreq
        rcases List.mem_cons.mp hreq with rfl | hreq'
        · exact hp
        · have hp' : (getVal p' k).isSome := by
            match hcont : r.cont with
            | some c =>
              have hstep : stepCont p r = Except.ok (some (dictUpdate p c)) := by
                simp [stepCont, hcont]
              rw [hc] at hstep
              injection hstep with h1
              injection h1 with h2
              rw [h2]
              exact isSome_getVal_dictUpdate p c k hp
            | none =>
              match hqc : r.queryCont with
              | some qc =>
                match hsub : getEntry qc "categories" with
                | some sub =>
                  have hstep : stepCont p r = Except.ok (some (dictUpdate p sub)) := by
                    simp [stepCont, hcont, hqc, hsub]
                  rw [hc] at hstep
                  injection hstep with h1
                  injection h1 with h2
                  rw [h2]
                  exact isSome_getVal_dictUpdate p sub k hp
                | none =>
                  have hstep : stepCont p r = Except.error () := by
                    simp [stepCont, hcont, hqc, hsub]
                  rw [hc] at hstep
                  exact absurd hstep (by simp)
              | none =>
                have hstep : stepCont p r = Except.ok none := by
                  simp [stepCont, hcont, hqc]
                rw [hc] at hstep
                injection hstep with h1
                exact absurd h1 (by simp)
          exact ih p' hp' req hreq'

/-! ## Claim theorems -/

/-- C1, counterexample: an article listing entry is emitted with the
prefix `mediawiki-article:`, not `article:`, so the emitted kind is not
drawn from `{article, media, special}`. -/
theorem discovered_item_form_cx :
    (get_all_pages 0 [⟨some (some [⟨"https://w/A"⟩]), none, none⟩]).items
        = ["mediawiki-article:https://w/A"]
    ∧ "mediawiki-article:https://w/A" ≠ "article:https://w/A" := by
  decide

/-- C1, amended: every Discovered Item emitted by the normalizer has the
form `<kind>:<url>` with kind drawn from
`{mediawiki-article, mediawiki-media, mediawiki-special}`: an article
entry maps to `mediawiki-article:` followed by its `fullurl` field, a
media entry to `mediawiki-media:` followed by its `url` field, and a
special-page name to `mediawiki-special:` followed by the substituted
URL. -/
theorem discovered_item_form :
    (∀ (ns : Int) (script : List (Resp PageInfo)) (item : String),
        item ∈ (get_all_pages ns script).items →
        ∃ p : PageInfo, item = "mediawiki-article:" ++ p.fullurl)
    ∧ (∀ (script : List (Resp ImageInfo)) (item : String),
        item ∈ (get_all_images script).items →
        ∃ i : ImageInfo, item = "mediawiki-media:" ++ i.url)
    ∧ (∀ (es : List SPEntry) (templateUrl item : String),
        item ∈ get_special_pages es templateUrl →
        ∃ name : String, item = "mediawiki-special:" ++ templateSub templateUrl name) := by
  refine ⟨?_, ?_, ?_⟩
  · intro ns script item h
    exact exists_of_mem_walk_items articleItem (allPagesParams ns) script item h
  · intro script item h
    exact exists_of_mem_walk_items imageItem allImagesParams script item h
  · intro es templateUrl item h
    obtain ⟨name, -, rfl⟩ := (mem_get_special_pages es templateUrl item).mp h
    exact ⟨name, rfl⟩

/-- C1, witness for `discovered_item_form` at concrete inputs. -/
theorem discovered_item_form_witness :
    (∃ p : PageInfo, "mediawiki-article:https://w/A" = "mediawiki-article:" ++ p.fullurl)
    ∧ (∃ i : ImageInfo, "mediawiki-media:https://w/I.png" = "mediawiki-media:" ++ i.url)
    ∧ (∃ name : String,
        "mediawiki-special:/wiki/Special:Export"
          = "mediawiki-special:" ++ templateSub "/wiki/$1" name) :=
  ⟨discovered_item_form.1 0 [⟨some (some [⟨"https://w/A"⟩]), none, none⟩]
      "mediawiki-article:https://w/A" (by decide),
   discovered_item_form.2.1 [⟨some (some [⟨"https://w/I.png"⟩]), none, none⟩]
      "mediawiki-media:https://w/I.png" (by decide),
   discovered_item_form.2.2 [⟨"Export", some []⟩] "/wiki/$1"
      "mediawiki-special:/wiki/Special:Export" (by decide)⟩

/-- C2, counterexample: on a legacy continuation carrying only the
`allpages` sub-object (the one pertinent to the article walk's
generator), the walker crashes with a `KeyError` on `'categories'`
instead of merging the `allpages` sub-object and issuing the next
request. -/
theorem legacy_continuation_cx :
    get_all_pages 0 [⟨some (some []), none, some [("allpages", [("gapfrom", "X")])]⟩]
        = .crash [allPagesParams 0]
    ∧ WalkResult.crash [allPagesParams 0]
        ≠ (walk articleItem (dictUpdate (allPagesParams 0) [("gapfrom", "X")]) []).after
            (allPagesParams 0) [] := by
  decide

/-- C2, amended: on a legacy continuation object (and no modern one), the
walker merges the `categories` sub-object regardless of the walk's own
generator/list, and crashes with a `KeyError` when the legacy
continuation lacks a `categories` sub-object. -/
theorem legacy_continuation_merge :
    (∀ (α : Type) (ext : α → String) (p : Dict) (r : Resp α) (rest : List (Resp α))
        (items : List String) (qc : List (String × Dict)) (sub : Dict),
        extractItems ext r = .ok items → r.cont = none → r.queryCont = some qc →
        getEntry qc "categories" = some sub →
        walk ext p (r :: rest) = (walk ext (dictUpdate p sub) rest).after p items)
    ∧ (∀ (α : Type) (ext : α → String) (p : Dict) (r : Resp α) (rest : List (Resp α))
        (items : List String) (qc : List (String × Dict)),
        extractItems ext r = .ok items → r.cont = none → r.queryCont = some qc →
        getEntry qc "categories" = none →
        walk ext p (r :: rest) = .crash [p]) := by
  constructor
  · intro α ext p r rest items qc sub hx hcont hqc hsub
    have hstep : stepCont p r = Except.ok (some (dictUpdate p sub)) := by
      simp [stepCont, hcont, hqc, hsub]
    simp only [walk, hx, hstep]
  · intro α ext p r rest items qc hx hcont hqc hsub
    have hstep : stepCont p r = Except.error () := by
      simp [stepCont, hcont, hqc, hsub]
    simp only [walk, hx, hstep]

/-- C2, witness for `legacy_continuation_merge` at concrete inputs. -/
theorem legacy_continuation_merge_witness :
    walk articleItem (allPagesParams 0)
        [⟨some (some []), none, some [("categories", [("gapcontinue", "X")])]⟩]
      = (walk articleItem (dictUpdate (allPagesParams 0) [("gapcontinue", "X")]) []).after
          (allPagesParams 0) []
    ∧ walk articleItem (allPagesParams 0)
        [⟨some (some []), none, some [("allpages", [("gapfrom", "X")])]⟩]
      = .crash [allPagesParams 0] :=
  ⟨legacy_continuation_merge.1 PageInfo articleItem (allPagesParams 0)
      ⟨some (some []), none, some [("categories", [("gapcontinue", "X")])]⟩ [] []
      [("categories", [("gapcontinue", "X")])] [("gapcontinue", "X")] rfl rfl rfl (by decide),
   legacy_continuation_merge.2 PageInfo articleItem (allPagesParams 0)
      ⟨some (some []), none, some [("allpages", [("gapfrom", "X")])]⟩ [] []
      [("allpages", [("gapfrom", "X")])] rfl rfl rfl (by decide)⟩

/-- C3: the parsed `--delay` flag is never assigned to the process-wide
`delaySeconds`, which stays at its module-level initializer `0`, so every
pause point sleeps `0` seconds even when the flag is set to `5`. -/
theorem delay_flag_ignored :
    (∀ args : Args, mainDelaySeconds args = delaySeconds)
    ∧ mainDelaySeconds ⟨"https://wiki.example/", some "5"⟩ = 0 :=
  ⟨fun _ => rfl, rfl⟩

/-- C4, counterexample: a mid-walk response whose payload is malformed
(`query` present but without the expected `pages` sub-structure) while a
continuation token is present crashes the walk with a `KeyError` instead
of contributing zero entries and continuing. -/
theorem malformed_page_cx :
    get_all_pages 0
        [⟨some none, some [("continue", "gapcontinue||"), ("gapcontinue", "X")], none⟩]
        = .crash [allPagesParams 0]
    ∧ WalkResult.crash [allPagesParams 0]
        ≠ (walk articleItem (dictUpdate (allPagesParams 0)
            [("continue", "gapcontinue||"), ("gapcontinue", "X")]) []).after
            (allPagesParams 0) [] := by
  decide

/-- C4, amended: only a response missing the `query` key entirely is
tolerated mid-walk: it contributes zero entries and the walk continues
when a continuation token is present; a response with no `query` key and
no continuation ends the walk normally as done. (A response with a
`query` object missing the expected sub-structure instead crashes the
walk, see `malformed_page_cx`.) -/
theorem missing_query_skipped :
    (∀ (α : Type) (ext : α → String) (p : Dict) (r : Resp α) (rest : List (Resp α))
        (c : Dict),
        r.query = none → r.cont = some c →
        walk ext p (r :: rest) = (walk ext (dictUpdate p c) rest).after p [])
    ∧ (∀ (α : Type) (ext : α → String) (p : Dict) (r : Resp α) (rest : List (Resp α)),
        r.query = none → r.cont = none → r.queryCont = none →
        walk ext p (r :: rest) = .done [p] []) := by
  constructor
  · intro α ext p r rest c hq hcont
    have hx : extractItems ext r = Except.ok [] := by simp [extractItems, hq]
    have hstep : stepCont p r = Except.ok (some (dictUpdate p c)) := by
      simp [stepCont, hcont]
    simp only [walk, hx, hstep]
  · intro α ext p r rest hq hcont hqc
    have hx : extractItems ext r = Except.ok [] := by simp [extractItems, hq]
    have hstep : stepCont p r = Except.ok none := by simp [stepCont, hcont, hqc]
    simp only [walk, hx, hstep]

/-- C4, witness for `missing_query_skipped` at concrete inputs. -/
theorem missing_query_skipped_witness :
    walk articleItem (allPagesParams 0) [⟨none, some [("gapcontinue", "X")], none⟩]
      = (walk articleItem (dictUpdate (allPagesParams 0) [("gapcontinue", "X")]) []).after
          (allPagesParams 0) []
    ∧ walk articleItem (allPagesParams 0) [⟨none, none, none⟩]
      = .done [allPagesParams 0] [] :=
  ⟨missing_query_skipped.1 PageInfo articleItem (allPagesParams 0)
      ⟨none, some [("gapcontinue", "X")], none⟩ [] [("gapcontinue", "X")] rfl rfl,
   missing_query_skipped.2 PageInfo articleItem (allPagesParams 0)
      ⟨none, none, none⟩ [] rfl rfl rfl⟩

/-- C5, counterexample: after a modern continuation merge, the follow-up
request's `continue` parameter is the server's token `gapcontinue||`, not
the empty string. -/
theorem empty_continue_cx :
    (get_all_pages 0
        [⟨some (some []), some [("continue", "gapcontinue||"), ("gapcontinue", "X")], none⟩,
         ⟨some (some []), none, none⟩]).requests.map (fun req => getVal req "continue")
      = [some "", some "gapcontinue||"]
    ∧ (some "gapcontinue||" : Option String) ≠ some "" := by
  decide

/-- C5, amended: every request of either paginated walk carries the
population-limit parameter (`gaplimit=50` for articles, `ailimit=50` for
media) provided no merged continuation object rebinds the limit key (real
servers never do), and every request carries a `continue` parameter,
which is the empty string in the initial parameter set and may be
replaced by continuation tokens on follow-up requests. -/
theorem limit_param_invariant :
    (∀ (ns : Int) (script : List (Resp PageInfo)),
        (∀ r ∈ script, RespAvoids "gaplimit" r) →
        ∀ req ∈ (get_all_pages ns script).requests,
          getVal req "gaplimit" = some "50" ∧ (getVal req "continue").isSome)
    ∧ (∀ script : List (Resp ImageInfo),
        (∀ r ∈ script, RespAvoids "ailimit" r) →
        ∀ req ∈ (get_all_images script).requests,
          getVal req "ailimit" = some "50" ∧ (getVal req "continue").isSome)
    ∧ (∀ ns : Int, getVal (allPagesParams ns) "continue" = some "")
    ∧ getVal allImagesParams "continue" = some "" := by
  refine ⟨?_, ?_, fun ns => rfl, rfl⟩
  · intro ns script hs req hreq
    exact ⟨walk_requests_getVal articleItem "gaplimit" "50" (allPagesParams ns) script
        rfl hs req hreq,
      walk_requests_isSome articleItem "continue" (allPagesParams ns) script rfl req hreq⟩
  · intro script hs req hreq
    exact ⟨walk_requests_getVal imageItem "ailimit" "50" allImagesParams script
        rfl hs req hreq,
      walk_requests_isSome imageItem "continue" allImagesParams script rfl req hreq⟩

/-- C5, witness for `limit_param_invariant` at concrete inputs. -/
theorem limit_param_invariant_witness :
    (getVal (allPagesParams 0) "gaplimit" = some "50"
      ∧ (getVal (allPagesParams 0) "continue").isSome)
    ∧ (getVal allImagesParams "ailimit" = some "50"
      ∧ (getVal allImagesParams "continue").isSome) :=
  ⟨limit_param_invariant.1 0 [⟨some (some []), none, none⟩]
      (fun r hr => by
        rw [List.mem_singleton.mp hr]
        exact ⟨(fun c hc => nomatch hc), (fun qc sub h1 _ => nomatch h1)⟩)
      (allPagesParams 0) (by decide),
   limit_param_invariant.2.1 [⟨some (some []), none, none⟩]
      (fun r hr => by
        rw [List.mem_singleton.mp hr]
        exact ⟨(fun c hc => nomatch hc), (fun qc sub h1 _ => nomatch h1)⟩)
      allImagesParams (by decide)⟩

/-- C6: namespace enumeration visits every namespace of the table in
table order, running one walk per namespace with a non-negative ID and no
walk for any namespace with a negative ID; for the table
`{0: Main, -1: Special, 2: Talk}` it visits exactly `0` then `2`. -/
theorem namespace_enumeration :
    (∀ table : List NamespaceInfo,
        namespaceWalkIds table
          = (table.filter (fun ns => 0 ≤ ns.id)).map NamespaceInfo.id)
    ∧ namespaceWalkIds
        [⟨0, some "Main"⟩, ⟨-1, some "Special"⟩, ⟨2, some "Talk"⟩] = [0, 2] := by
  constructor
  · intro table
    induction table with
    | nil => rfl
    | cons ns t ih =>
      by_cases h : ns.id < 0
      · have h' : ¬ (0 ≤ ns.id) := by omega
        simp [namespaceWalkIds, h, List.filter, h', ih]
      · have h' : 0 ≤ ns.id := by omega
        simp [namespaceWalkIds, h, List.filter, h', ih]
  · decide

/-- C7, counterexample: the special-page enumeration emits items with the
`mediawiki-special:` prefix, so its output is not the claimed set of
`special:`-prefixed strings. -/
theorem special_pages_cx :
    get_special_pages [⟨"Export", some ["ExportPages"]⟩] "/wiki/$1"
      ≠ {"special:/wiki/Special:Export", "special:/wiki/Special:ExportPages"} := by
  decide

/-- C7, amended: given alias entry `{realname: Export, aliases:
[ExportPages]}` and template `/wiki/$1`, the enumeration outputs exactly
`mediawiki-special:/wiki/Special:Export` and
`mediawiki-special:/wiki/Special:ExportPages`, and repeating the same
realname or alias across entries never yields a duplicate. -/
theorem special_pages_enumeration :
    get_special_pages [⟨"Export", some ["ExportPages"]⟩] "/wiki/$1"
      = {"mediawiki-special:/wiki/Special:Export",
         "mediawiki-special:/wiki/Special:ExportPages"}
    ∧ ∀ (es : List SPEntry) (templateUrl : String),
        get_special_pages (es ++ es) templateUrl
          = get_special_pages es templateUrl := by
  constructor
  · decide
  · intro es templateUrl
    apply Finset.ext
    intro item
    rw [mem_get_special_pages, mem_get_special_pages]
    simp [List.mem_append]

/-- C8: when the input URL already contains the API script marker
`api.php`, endpoint resolution returns the input unchanged with an empty
network trace. -/
theorem api_fast_path (wikiUrl : String) (page : FetchedPage)
    (h : strContains wikiUrl "api.php" = true) :
    get_api_url wikiUrl page = (some wikiUrl, []) := by
  simp [get_api_url, h]

/-- C8, witness for `api_fast_path` at a concrete input. -/
theorem api_fast_path_witness :
    strContains "https://wiki.example/w/api.php" "api.php" = true
    ∧ get_api_url "https://wiki.example/w/api.php" ⟨none, none⟩
        = (some "https://wiki.example/w/api.php", []) :=
  ⟨by decide, api_fast_path "https://wiki.example/w/api.php" ⟨none, none⟩ (by decide)⟩

/-- C9: with no EditURI link but a stylesheet link with an `href`,
endpoint resolution returns the stylesheet URL's scheme and host with
path `/api.php`, and its trace is the page fetch followed by the scoped
pause, which sits between the EditURI check and the stylesheet
fallback. -/
theorem stylesheet_fallback_resolution (wikiUrl css : String) (page : FetchedPage)
    (h0 : strContains wikiUrl "api.php" = false)
    (h1 : page.editURI = none)
    (h2 : page.stylesheet = some (some css)) :
    get_api_url wikiUrl page =
      (some ((urlSchemeNetloc css).1 ++ "://" ++ (urlSchemeNetloc css).2 ++ "/api.php"),
        [.fetch wikiUrl, .pause]) := by
  simp [get_api_url, h0, h1, h2]

/-- C9, witness: the spec's example stylesheet resolves to
`https://wiki.example/api.php`. -/
theorem stylesheet_fallback_resolution_witness :
    strContains "https://wiki.example/" "api.php" = false
    ∧ get_api_url "https://wiki.example/"
        ⟨none, some (some "https://wiki.example/skins/common/load.css")⟩
      = (some "https://wiki.example/api.php",
          [.fetch "https://wiki.example/", .pause]) :=
  ⟨by decide,
   stylesheet_fallback_resolution "https://wiki.example/"
      "https://wiki.example/skins/common/load.css"
      ⟨none, some (some "https://wiki.example/skins/common/load.css")⟩
      (by decide) rfl rfl⟩

/-- C10: an alias entry lacking the `aliases` field entirely contributes
only its realname to the alias set — the enumeration behaves exactly as
if the entry had an empty alias list, all other entries unaffected — and
its realname's item is emitted. -/
theorem missing_aliases_field (l₁ l₂ : List SPEntry) (e : SPEntry) (templateUrl : String)
    (h : e.aliases = none) :
    get_special_pages (l₁ ++ e :: l₂) templateUrl
        = get_special_pages (l₁ ++ { realname := e.realname, aliases := some [] } :: l₂)
            templateUrl
    ∧ ("mediawiki-special:" ++ templateSub templateUrl e.realname)
        ∈ get_special_pages (l₁ ++ e :: l₂) templateUrl := by
  constructor
  · apply Finset.ext
    intro item
    rw [mem_get_special_pages, mem_get_special_pages]
    constructor
    · rintro ⟨name, ⟨e', he', hn⟩, rfl⟩
      refine ⟨name, ?_, rfl⟩
      rcases List.mem_append.mp he' with h' | h'
      · exact ⟨e', List.mem_append_left _ h', hn⟩
      · rcases List.mem_cons.mp h' with heq | h''
        · rw [heq, h] at hn
          simp only [Option.getD_none, List.not_mem_nil, or_false] at hn
          exact ⟨⟨e.realname, some []⟩,
            List.mem_append_right _ (List.mem_cons_self _ _), Or.inl hn⟩
        · exact ⟨e', List.mem_append_right _ (List.mem_cons_of_mem _ h''), hn⟩
    · rintro ⟨name, ⟨e', he', hn⟩, rfl⟩
      refine ⟨name, ?_, rfl⟩
      rcases List.mem_append.mp he' with h' | h'
      · exact ⟨e', List.mem_append_left _ h', hn⟩
      · rcases List.mem_cons.mp h' with heq | h''
        · rw [heq] at hn
          simp only [Option.getD_some, List.not_mem_nil, or_false] at hn
          exact ⟨e, List.mem_append_right _ (List.mem_cons_self _ _), Or.inl hn⟩
        · exact ⟨e', List.mem_append_right _ (List.mem_cons_of_mem _ h''), hn⟩
  · exact (mem_get_special_pages _ _ _).mpr
      ⟨e.realname, ⟨e, List.mem_append_right _ (List.mem_cons_self _ _), Or.inl rfl⟩, rfl⟩

/-- C10, witness for `missing_aliases_field` at a concrete input. -/
theorem missing_aliases_field_witness :
    get_special_pages [⟨"Block", some ["BlockUser"]⟩, ⟨"Export", none⟩] "/wiki/$1"
        = get_special_pages [⟨"Block", some ["BlockUser"]⟩, ⟨"Export", some []⟩] "/wiki/$1"
    ∧ ("mediawiki-special:" ++ templateSub "/wiki/$1" "Export")
        ∈ get_special_pages [⟨"Block", some ["BlockUser"]⟩, ⟨"Export", none⟩] "/wiki/$1" :=
  missing_aliases_field [⟨"Block", some ["BlockUser"]⟩] [] ⟨"Export", none⟩ "/wiki/$1" rfl

end MWDiscovery
